import Mathlib

/-!
# Noteeees — structured relevance search: a shallow embedding

This file embeds the core of the `noteeees` note search engine
(`notes-mcp/src/index.ts`): the memory-file parser, the query tokenizer,
the synonym expander, the weight resolver, the per-entry scorer and the
ranker behind the `structure_search_notes` tool, together with theorems
about the frozen specification claims.

JavaScript strings are modelled as Lean `String`s (lists of characters);
`toLowerCase` is modelled ASCII-faithfully by `Char.toLower`, and
`String.prototype.includes` by a substring check over character lists.
Ambient state (the clock read by the recency bonus) is passed explicitly,
as an epoch-minute count.
-/

namespace Noteeees

/-! ### String primitives (models of the JS string operations used) -/

/-- JS `text.toLowerCase()` (`normalize` in the source), modelled by
ASCII lowercasing of every character. -/
def normalize (s : String) : String := ⟨s.data.map Char.toLower⟩

/-- Does `pat` occur as a contiguous run inside the character list?
Helper for `strIncludes`. -/
def charsIncludes (pat : List Char) : List Char → Bool
  | [] => pat.isEmpty
  | c :: rest => pat.isPrefixOf (c :: rest) || charsIncludes pat rest

/-- JS `s.includes(pat)`: `pat` is a substring of `s`. -/
def strIncludes (s pat : String) : Bool := charsIncludes pat.data s.data

/-- JS `s.slice(0, 7)` (used for the `YYYY-MM` month text). -/
def sliceTo7 (s : String) : String := ⟨s.data.take 7⟩

/-- JS `token.startsWith("#")`. -/
def startsWithHash (t : String) : Bool :=
  match t.data with
  | '#' :: _ => true
  | _ => false

/-- JS `token.slice(1)`: the token with its first character removed. -/
def dropFirstChar (t : String) : String := ⟨t.data.drop 1⟩

/-- JS `s.split(sep)` for a one-character separator, at the character
level: `"a:b:c" → ["a","b","c"]`, `"" → [""]`, `":b" → ["","b"]`. -/
def splitChar (sep : Char) : List Char → List (List Char)
  | [] => [[]]
  | c :: rest =>
    match splitChar sep rest with
    | [] => [[]]
    | grp :: gs => if c == sep then [] :: grp :: gs else (c :: grp) :: gs

/-- JS `s.trim()` (whitespace from both ends). -/
def jsTrim (s : String) : String :=
  ⟨((s.data.dropWhile Char.isWhitespace).reverse.dropWhile Char.isWhitespace).reverse⟩

/-- JS `array.join(" ")` at the character level. -/
def joinSpaceChars : List (List Char) → List Char
  | [] => []
  | [x] => x
  | x :: y :: rest => x ++ ' ' :: joinSpaceChars (y :: rest)

/-- JS `tags.join(" ")`. -/
def joinSpace (l : List String) : String := ⟨joinSpaceChars (l.map String.data)⟩

/-- Maximal runs of non-whitespace characters, in order: the combined
effect of JS `query.trim().split(/\s+/)` followed by dropping empty
pieces.  `acc` is the run being read, reversed. -/
def wordsGo : List Char → List Char → List (List Char)
  | [], acc => if acc.isEmpty then [] else [acc.reverse]
  | c :: rest, acc =>
    if c.isWhitespace then
      if acc.isEmpty then wordsGo rest [] else acc.reverse :: wordsGo rest []
    else wordsGo rest (c :: acc)

/-- `tokenizeQuery` of the source: trim, split on whitespace runs,
lowercase, keep non-empty tokens (lowercasing preserves length, so the
non-empty filter is subsumed by taking maximal non-empty runs). -/
def tokenizeQuery (query : String) : List String :=
  (wordsGo query.data []).map (fun w => normalize ⟨w⟩)

/-- One step of JS `Set` insertion (first-occurrence order preserved). -/
def setAdd (xs : List String) (x : String) : List String :=
  if xs.contains x then xs else xs ++ [x]

/-- JS `[...new Set(xs)]`: deduplicate keeping first occurrences. -/
def dedup (xs : List String) : List String := xs.foldl setAdd []

/-! ### Data model -/

/-- A parsed log entry (`MemoryEntry` in the source). -/
structure MemoryEntry where
  dateTime : String
  tags : List String
  content : String
  reminder : Option String := none
  deriving Repr, DecidableEq

/-- The seven scoring weights (`SearchWeights`); the effective values the
pipeline feeds to the scorer are integers.  The source's `tagPartial`
field is named `tagPart` here. -/
structure SearchWeights where
  tagExact : Int
  dateMatch : Int
  monthMatch : Int
  tagPart : Int
  contentMatch : Int
  multiTokenBonus : Int
  allTokensBonus : Int
  deriving Repr, DecidableEq

/-- `DEFAULT_WEIGHTS` of the source. -/
def DEFAULT_WEIGHTS : SearchWeights :=
  { tagExact := 6, dateMatch := 4, monthMatch := 3, tagPart := 3
    contentMatch := 2, multiTokenBonus := 3, allTokensBonus := 4 }

/-- A scored entry (`StructuredSearchResult`). -/
structure StructuredSearchResult where
  score : Int
  matchedTokenCount : Nat
  reasons : List String
  entry : MemoryEntry
  deriving Repr, DecidableEq

/-! ### Weight resolution -/

/-- A JS `number` as the weight resolver sees it: a finite value
(modelled as a rational, so `Math.floor` is meaningful) or one of the
non-finite values `NaN`, `Infinity`, `-Infinity`. -/
inductive JsNum where
  | finite (q : ℚ)
  | nan
  | posInf
  | negInf
  deriving DecidableEq

/-- `toBoundedInt(value, fallback, min, max)`: non-finite values fall
back; finite values are floored then clamped into `[lo, hi]`. -/
def toBoundedInt (value : JsNum) (fallback lo hi : Int) : Int :=
  match value with
  | .finite q => min (max ⌊q⌋ lo) hi
  | _ => fallback

/-- A partial weight-override object (`Partial<SearchWeights>`): each
field is absent or a JS number. -/
structure Overrides where
  tagExact : Option JsNum := none
  dateMatch : Option JsNum := none
  monthMatch : Option JsNum := none
  tagPart : Option JsNum := none
  contentMatch : Option JsNum := none
  multiTokenBonus : Option JsNum := none
  allTokensBonus : Option JsNum := none

/-- `getEffectiveWeights`: every field is
`toBoundedInt(overrides?.f ?? DEFAULT_WEIGHTS.f, DEFAULT_WEIGHTS.f, lo, hi)`
with `lo = 1` for the five signal weights and `lo = 0` for the bonuses. -/
def getEffectiveWeights (o : Overrides) : SearchWeights :=
  { tagExact := toBoundedInt (o.tagExact.getD (.finite (DEFAULT_WEIGHTS.tagExact : ℚ)))
      DEFAULT_WEIGHTS.tagExact 1 20
    dateMatch := toBoundedInt (o.dateMatch.getD (.finite (DEFAULT_WEIGHTS.dateMatch : ℚ)))
      DEFAULT_WEIGHTS.dateMatch 1 20
    monthMatch := toBoundedInt (o.monthMatch.getD (.finite (DEFAULT_WEIGHTS.monthMatch : ℚ)))
      DEFAULT_WEIGHTS.monthMatch 1 20
    tagPart := toBoundedInt (o.tagPart.getD (.finite (DEFAULT_WEIGHTS.tagPart : ℚ)))
      DEFAULT_WEIGHTS.tagPart 1 20
    contentMatch := toBoundedInt (o.contentMatch.getD (.finite (DEFAULT_WEIGHTS.contentMatch : ℚ)))
      DEFAULT_WEIGHTS.contentMatch 1 20
    multiTokenBonus := toBoundedInt (o.multiTokenBonus.getD (.finite (DEFAULT_WEIGHTS.multiTokenBonus : ℚ)))
      DEFAULT_WEIGHTS.multiTokenBonus 0 20
    allTokensBonus := toBoundedInt (o.allTokensBonus.getD (.finite (DEFAULT_WEIGHTS.allTokensBonus : ℚ)))
      DEFAULT_WEIGHTS.allTokensBonus 0 20 }

/-! ### Entry dates and the recency bonus

Time is modelled in whole minutes since the Unix epoch (local wall-clock,
as in the source, which never applies a timezone).  The JS code compares
`(now - parsed) / 86400000 ≤ k` days; with both instants in whole
minutes this is exactly `nowMin - parsedMin ≤ k * 1440`. -/

/-- Civil date to days since 1970-01-01 (Gregorian, valid for all years;
`Int.fdiv` is floor division like the reference algorithm's era split). -/
def daysFromCivil (y m d : Int) : Int :=
  let y' := if m ≤ 2 then y - 1 else y
  let era := Int.fdiv y' 400
  let yoe := y' - era * 400
  let mp := if 2 < m then m - 3 else m + 9
  let doy := Int.fdiv (153 * mp + 2) 5 + d - 1
  let doe := yoe * 365 + Int.fdiv yoe 4 - Int.fdiv yoe 100 + doy
  era * 146097 + doe - 719468

def isLeapYear (y : Int) : Bool :=
  (y % 4 == 0 && y % 100 != 0) || y % 400 == 0

def daysInMonth (y m : Int) : Int :=
  if m = 2 then (if isLeapYear y then 29 else 28)
  else if m = 4 ∨ m = 6 ∨ m = 9 ∨ m = 11 then 30
  else 31

/-- Numeric value of two decimal digit characters. -/
def twoDigits (a b : Char) : Int :=
  (a.toNat - '0'.toNat : Int) * 10 + (b.toNat - '0'.toNat : Int)

/-- Parse `YYYY-MM-DDTHH:mm` (the only shape `parseEntryDate` ever hands
to `new Date`) into minutes since the epoch, validating field ranges the
way ECMAScript date-time parsing does; anything else is an invalid date. -/
def parseIsoLike (cs : List Char) : Option Int :=
  match cs with
  | [y1, y2, y3, y4, c1, o1, o2, c2, d1, d2, ct, h1, h2, cc, n1, n2] =>
    if (y1.isDigit && y2.isDigit && y3.isDigit && y4.isDigit &&
        o1.isDigit && o2.isDigit && d1.isDigit && d2.isDigit &&
        h1.isDigit && h2.isDigit && n1.isDigit && n2.isDigit) &&
        c1 == '-' && c2 == '-' && ct == 'T' && cc == ':' then
      let y := twoDigits y1 y2 * 100 + twoDigits y3 y4
      let m := twoDigits o1 o2
      let d := twoDigits d1 d2
      let h := twoDigits h1 h2
      let n := twoDigits n1 n2
      if 1 ≤ m ∧ m ≤ 12 ∧ 1 ≤ d ∧ d ≤ daysInMonth y m ∧ h ≤ 23 ∧ n ≤ 59 then
        some (daysFromCivil y m d * 1440 + h * 60 + n)
      else none
    else none
  | _ => none

/-- JS `dateTime.replace(" ", "T")` (first occurrence only). -/
def replaceFirstSpaceT : List Char → List Char
  | [] => []
  | c :: rest => if c == ' ' then 'T' :: rest else c :: replaceFirstSpaceT rest

/-- `parseEntryDate`: build the ISO-like string (`" " → "T"`, or append
`"T00:00"`) and parse it; `none` models an Invalid Date. -/
def parseEntryDate (dateTime : String) : Option Int :=
  if strIncludes dateTime " " then parseIsoLike (replaceFirstSpaceT dateTime.data)
  else parseIsoLike (dateTime.data ++ "T00:00".data)

/-- `getRecencyBonus` with the current time passed explicitly in epoch
minutes: +4 within 7 days, +3 within 30, +2 within 90, +1 within 180. -/
def getRecencyBonus (now : Int) (dateTime : String) : Int :=
  match parseEntryDate dateTime with
  | none => 0
  | some t =>
    let mins := now - t
    if mins ≤ 7 * 1440 then 4
    else if mins ≤ 30 * 1440 then 3
    else if mins ≤ 90 * 1440 then 2
    else if mins ≤ 180 * 1440 then 1
    else 0

/-! ### Synonyms

A JS `Map<string, Set<string>>` with its insertion order is modelled as
an association list of keys to duplicate-free value lists. -/

/-- `getBuiltInSynonyms()`. -/
def getBuiltInSynonyms : List (String × List String) :=
  [("経費", ["精算", "交通費", "出張費"]),
   ("会議", ["mtg", "ミーティング"]),
   ("タスク", ["todo", "課題"])]

/-- JS `map.has(key)`. -/
def keyIn (m : List (String × List String)) (key : String) : Bool :=
  m.any (fun kv => kv.1 == key)

/-- `map.has(key) ? map : map.set(key, new Set())`. -/
def mapEnsureKey (m : List (String × List String)) (key : String) :
    List (String × List String) :=
  if keyIn m key then m else m ++ [(key, [])]

/-- `map.get(key)?.add(v)`. -/
def mapAddValue (m : List (String × List String)) (key v : String) :
    List (String × List String) :=
  m.map (fun kv => if kv.1 == key then (kv.1, setAdd kv.2 v) else kv)

/-- Fold one built-in `[key, values]` pair into the map. -/
def addBuiltInRow (m : List (String × List String))
    (row : String × List String) : List (String × List String) :=
  let normalizedKey := normalize row.1
  row.2.foldl (fun acc v => mapAddValue acc normalizedKey (normalize v))
    (mapEnsureKey m normalizedKey)

/-- Fold one custom `"key:v1,v2"` row into the map: split on `:`, trim,
skip the row if the key or the value list is missing/empty, else merge
each trimmed, normalized, non-empty value into the key's set. -/
def addCustomRow (m : List (String × List String)) (row : String) :
    List (String × List String) :=
  let parts := (splitChar ':' row.data).map (fun p => jsTrim ⟨p⟩)
  let rawKey := parts.getD 0 ""
  let rawValues := parts.getD 1 ""
  if rawKey == "" || rawValues == "" then m
  else
    let key := normalize rawKey
    (((splitChar ',' rawValues.data).map (fun v => normalize (jsTrim ⟨v⟩))).filter
        (fun v => 0 < v.length)).foldl
      (fun acc v => mapAddValue acc key v) (mapEnsureKey m key)

/-- `getSynonymMap`: built-in rows first, then the custom rows merged in. -/
def getSynonymMap (customSynonyms : List String) : List (String × List String) :=
  customSynonyms.foldl addCustomRow
    (getBuiltInSynonyms.foldl addBuiltInRow [])

/-- `synonymMap.get(bareToken) ?? []`. -/
def lookupSyns (m : List (String × List String)) (key : String) : List String :=
  ((m.find? (fun kv => kv.1 == key)).map (fun kv => kv.2)).getD []

/-- `expandTokens`: the original tokens as a set, then for each token the
synonyms of its `#`-stripped form, single hop. -/
def expandTokens (tokens : List String) (synonymMap : List (String × List String)) :
    List String :=
  let expanded := tokens.foldl setAdd []
  tokens.foldl
    (fun acc token =>
      let bareToken := if startsWithHash token then dropFirstChar token else token
      (lookupSyns synonymMap bareToken).foldl setAdd acc)
    expanded

/-! ### The memory-file parser -/

/-- A character of the regex class `[\w-]` (ASCII `\w`, as in an
un-flagged JS regex): letters, digits, `_`, `-`. -/
def isTagChar (c : Char) : Bool := c.isAlphanum || c == '_' || c == '-'

/-- Left-to-right scan for the non-overlapping matches of `/#[\w-]+/g`:
`acc = none` outside a candidate match, `acc = some run` after a `#`
with `run` the (reversed) tag characters read so far; a candidate with
an empty run is no match. -/
def scanTagsGo : List Char → Option (List Char) → List String
  | [], none => []
  | [], some run => if run.isEmpty then [] else [⟨'#' :: run.reverse⟩]
  | c :: rest, none =>
    if c == '#' then scanTagsGo rest (some []) else scanTagsGo rest none
  | c :: rest, some run =>
    if isTagChar c then scanTagsGo rest (some (c :: run))
    else if run.isEmpty then
      if c == '#' then scanTagsGo rest (some []) else scanTagsGo rest none
    else
      (⟨'#' :: run.reverse⟩ : String) ::
        (if c == '#' then scanTagsGo rest (some []) else scanTagsGo rest none)

/-- `tagsPart.match(/#[\w-]+/g) || []`. -/
def scanTags (cs : List Char) : List String := scanTagsGo cs none

/-- Try `\d{4}-\d{2}-\d{2}` at the head of the list, returning the ten
matched characters. -/
def matchDateDigits : List Char → Option (List Char)
  | y1 :: y2 :: y3 :: y4 :: c1 :: m1 :: m2 :: c2 :: d1 :: d2 :: _ =>
    if y1.isDigit && y2.isDigit && y3.isDigit && y4.isDigit &&
        m1.isDigit && m2.isDigit && d1.isDigit && d2.isDigit &&
        c1 == '-' && c2 == '-' then
      some [y1, y2, y3, y4, c1, m1, m2, c2, d1, d2]
    else none
  | _ => none

/-- First match of `/@(\d{4}-\d{2}-\d{2})/`: the captured date. -/
def findReminder : List Char → Option String
  | [] => none
  | c :: rest =>
    if c == '@' then
      match matchDateDigits rest with
      | some ds => some ⟨ds⟩
      | none => findReminder rest
    else findReminder rest

/-- Match `/^## (\d{4}-\d{2}-\d{2}(?: \d{2}:\d{2})?)(.*)$/` against the
part after `"## "`: the timestamp capture and the rest of the line. -/
def parseHeaderRest (rest : List Char) : Option (String × String) :=
  match rest with
  | y1 :: y2 :: y3 :: y4 :: c1 :: m1 :: m2 :: c2 :: d1 :: d2 :: tail =>
    if y1.isDigit && y2.isDigit && y3.isDigit && y4.isDigit &&
        m1.isDigit && m2.isDigit && d1.isDigit && d2.isDigit &&
        c1 == '-' && c2 == '-' then
      let datePart := [y1, y2, y3, y4, c1, m1, m2, c2, d1, d2]
      match tail with
      | ' ' :: h1 :: h2 :: cc :: n1 :: n2 :: tail2 =>
        if h1.isDigit && h2.isDigit && n1.isDigit && n2.isDigit && cc == ':' then
          some (⟨datePart ++ [' ', h1, h2, ':', n1, n2]⟩, ⟨tail2⟩)
        else some (⟨datePart⟩, ⟨tail⟩)
      | _ => some (⟨datePart⟩, ⟨tail⟩)
    else none
  | _ => none

/-- The header regex applied to a whole line. -/
def parseHeaderLine (line : String) : Option (String × String) :=
  match line.data with
  | '#' :: '#' :: ' ' :: rest => parseHeaderRest rest
  | _ => none

/-- JS `line.startsWith("# ")`. -/
def startsWithTitleMarker (line : String) : Bool :=
  match line.data with
  | '#' :: ' ' :: _ => true
  | _ => false

/-- The line loop of `parseMemoryFile`: a header line flushes the open
entry and opens a new one (tags and the `@YYYY-MM-DD` reminder are both
read from the header's tail `tagsPart`); any other non-blank,
non-title line is appended to the open entry's content. -/
def parseMemoryLines : List String → Option MemoryEntry → List MemoryEntry
  | [], none => []
  | [], some ce => [ce]
  | line :: rest, cur =>
    match parseHeaderLine line with
    | some (dateTime, tagsPart) =>
      let newEntry : MemoryEntry :=
        { dateTime := dateTime, tags := scanTags tagsPart.data, content := "",
          reminder := findReminder tagsPart.data }
      match cur with
      | some ce => ce :: parseMemoryLines rest (some newEntry)
      | none => parseMemoryLines rest (some newEntry)
    | none =>
      match cur with
      | some ce =>
        if jsTrim line ≠ "" ∧ ¬ startsWithTitleMarker line then
          parseMemoryLines rest (some { ce with
            content := if ce.content = "" then line else ce.content ++ "\n" ++ line })
        else parseMemoryLines rest cur
      | none => parseMemoryLines rest cur

/-- `parseMemoryFile` on the raw document text. -/
def parseMemoryFile (content : String) : List MemoryEntry :=
  parseMemoryLines ((splitChar '\n' content.data).map (⟨·⟩)) none

/-! ### The scorer -/

/-- The scorer's derived texts for one entry. -/
def normTags (e : MemoryEntry) : List String := e.tags.map normalize
def dateTextOf (e : MemoryEntry) : String := normalize e.dateTime
def monthTextOf (e : MemoryEntry) : String := sliceTo7 e.dateTime
def tagTextOf (e : MemoryEntry) : String := joinSpace (normTags e)
def contentTextOf (e : MemoryEntry) : String := normalize e.content

/-- `` token.startsWith("#") ? token : `#${token}` ``. -/
def tagTokenOf (token : String) : String :=
  if startsWithHash token then token else "#" ++ token

/-- The loop state of `scoreEntry`'s per-token loop. -/
structure ScoreState where
  score : Int
  matchedTokenCount : Nat
  reasons : List String
  deriving Repr, DecidableEq

/-- One iteration of the per-token loop of `scoreEntry`.  The tag-exact
branch `continue`s, skipping the `matchedTokenCount` increment at the
bottom of the loop body. -/
def scoreToken (e : MemoryEntry) (w : SearchWeights) (st : ScoreState)
    (token : String) : ScoreState :=
  let tagToken := tagTokenOf token
  if (normTags e).contains tagToken then
    { st with score := st.score + w.tagExact,
              reasons := st.reasons ++ ["tag:" ++ tagToken] }
  else
    let hd := strIncludes (dateTextOf e) token
    let st1 := if hd then
        { st with score := st.score + w.dateMatch,
                  reasons := st.reasons ++ ["date:" ++ token] }
      else st
    let hm := strIncludes (monthTextOf e) token
    let st2 := if hm then
        { st1 with score := st1.score + w.monthMatch,
                   reasons := st1.reasons ++ ["month:" ++ token] }
      else st1
    let ht := strIncludes (tagTextOf e) token
    let st3 := if ht then
        { st2 with score := st2.score + w.tagPart,
                   reasons := st2.reasons ++ ["tag-partial:" ++ token] }
      else st2
    let hc := strIncludes (contentTextOf e) token
    let st4 := if hc then
        { st3 with score := st3.score + w.contentMatch,
                   reasons := st3.reasons ++ ["content:" ++ token] }
      else st3
    if hd || hm || ht || hc then
      { st4 with matchedTokenCount := st4.matchedTokenCount + 1 }
    else st4

/-- `scoreEntry`: run the token loop, then the multi-token bonus, the
all-tokens bonus (compared against the length of the token list the
scorer was handed), and the recency bonus; reasons are deduplicated. -/
def scoreEntry (e : MemoryEntry) (tokens : List String) (w : SearchWeights)
    (includeRecencyBonus : Bool) (now : Int) : StructuredSearchResult :=
  let st0 := tokens.foldl (scoreToken e w) ⟨0, 0, []⟩
  let st1 := if 2 ≤ st0.matchedTokenCount then
      { st0 with score := st0.score + w.multiTokenBonus,
                 reasons := st0.reasons ++ ["bonus:multi-token"] }
    else st0
  let st2 := if st1.matchedTokenCount = tokens.length then
      { st1 with score := st1.score + w.allTokensBonus,
                 reasons := st1.reasons ++ ["bonus:all-tokens"] }
    else st1
  let st3 := if includeRecencyBonus then
      let recencyBonus := getRecencyBonus now e.dateTime
      if 0 < recencyBonus then
        { st2 with score := st2.score + recencyBonus,
                   reasons := st2.reasons ++ ["bonus:recent+" ++ toString recencyBonus] }
      else st2
    else st2
  { score := st3.score, matchedTokenCount := st3.matchedTokenCount,
    reasons := dedup st3.reasons, entry := e }

/-! ### The ranker -/

/-- The sort order of the handler's comparator
`(a, b) => b.score - a.score || b.entry.dateTime.localeCompare(a.entry.dateTime)`:
`a` may stay before `b` iff the comparator is `≤ 0` there — higher score
first, ties by lexicographically greater timestamp first. -/
def sortLe (a b : StructuredSearchResult) : Bool :=
  decide (b.score < a.score) ||
    (decide (a.score = b.score) && decide (b.entry.dateTime ≤ a.entry.dateTime))

/-- The ranking pipeline of `structure_search_notes`: score every entry,
keep strictly positive scores, sort (JS `Array.prototype.sort` is a
stable sort, as is `List.mergeSort`), truncate to the bounded limit. -/
def rankEntries (entries : List MemoryEntry) (tokens : List String)
    (w : SearchWeights) (includeRecencyBonus : Bool) (now : Int)
    (safeLimit : Nat) : List StructuredSearchResult :=
  (((entries.map (fun e => scoreEntry e tokens w includeRecencyBonus now)).filter
      (fun r => decide (0 < r.score))).mergeSort sortLe).take safeLimit

/-- The visible outcome of the `structure_search_notes` tool call. -/
inductive SearchOutcome where
  | error (message : String)
  | ok (queryTokens expandedTokens : List String)
      (results : List StructuredSearchResult)
  deriving DecidableEq

/-- The `structure_search_notes` handler on already-parsed entries:
tokenize; report an explicit error on an empty token list; otherwise
bound the limit, build the synonym map, expand, resolve weights, rank. -/
def structure_search_notes (entries : List MemoryEntry) (query : String)
    (limit : JsNum) (includeRecencyBonus : Bool) (synonyms : List String)
    (weights : Overrides) (now : Int) : SearchOutcome :=
  let queryTokens := tokenizeQuery query
  if queryTokens.length = 0 then .error "query is empty"
  else
    let safeLimit := toBoundedInt limit 10 1 200
    let synonymMap := getSynonymMap synonyms
    let expandedTokens := expandTokens queryTokens synonymMap
    let effectiveWeights := getEffectiveWeights weights
    .ok queryTokens expandedTokens
      (rankEntries entries expandedTokens effectiveWeights includeRecencyBonus now
        safeLimit.toNat)

/-! ### Decomposing the scorer

The per-token loop body touches the three state components
independently of the state's value, so the loop is a sum / count /
concatenation over the token list.  The five match signals of one token: -/

/-- The tag-exact signal (the short-circuiting first check). -/
def tagHitExact (e : MemoryEntry) (t : String) : Bool :=
  (normTags e).contains (tagTokenOf t)

/-- The date signal: token is a substring of the normalized timestamp. -/
def hitDate (e : MemoryEntry) (t : String) : Bool := strIncludes (dateTextOf e) t

/-- The month signal: token is a substring of `dateTime.slice(0, 7)`. -/
def hitMonth (e : MemoryEntry) (t : String) : Bool := strIncludes (monthTextOf e) t

/-- The tag-partial signal: token is a substring of the joined tag list. -/
def hitTagText (e : MemoryEntry) (t : String) : Bool := strIncludes (tagTextOf e) t

/-- The content signal: token is a substring of the normalized body. -/
def hitContent (e : MemoryEntry) (t : String) : Bool := strIncludes (contentTextOf e) t

/-- Whether the loop body increments `matchedTokenCount` for this token:
the tag-exact branch `continue`s before the increment, so only the four
non-exact signals count. -/
def tokenMatches (e : MemoryEntry) (t : String) : Bool :=
  !tagHitExact e t && (hitDate e t || hitMonth e t || hitTagText e t || hitContent e t)

/-- The score contributed by one token. -/
def tokenScore (e : MemoryEntry) (w : SearchWeights) (t : String) : Int :=
  if tagHitExact e t then w.tagExact
  else
    (if hitDate e t then w.dateMatch else 0) +
    (if hitMonth e t then w.monthMatch else 0) +
    (if hitTagText e t then w.tagPart else 0) +
    (if hitContent e t then w.contentMatch else 0)

/-- The reasons pushed for one token. -/
def tokenReasons (e : MemoryEntry) (t : String) : List String :=
  if tagHitExact e t then ["tag:" ++ tagTokenOf t]
  else
    (if hitDate e t then ["date:" ++ t] else []) ++
    (if hitMonth e t then ["month:" ++ t] else []) ++
    (if hitTagText e t then ["tag-partial:" ++ t] else []) ++
    (if hitContent e t then ["content:" ++ t] else [])

theorem scoreToken_eq (e : MemoryEntry) (w : SearchWeights) (st : ScoreState)
    (t : String) :
    scoreToken e w st t =
      ⟨st.score + tokenScore e w t,
       st.matchedTokenCount + (if tokenMatches e t then 1 else 0),
       st.reasons ++ tokenReasons e t⟩ := by
  unfold scoreToken tokenScore tokenMatches tokenReasons
  by_cases h0 : tagTokenOf t ∈ normTags e
  · simp [tagHitExact, h0]
  · by_cases h1 : strIncludes (dateTextOf e) t <;>
    by_cases h2 : strIncludes (monthTextOf e) t <;>
    by_cases h3 : strIncludes (tagTextOf e) t <;>
    by_cases h4 : strIncludes (contentTextOf e) t <;>
      simp [tagHitExact, hitDate, hitMonth, hitTagText, hitContent,
        h0, h1, h2, h3, h4, add_assoc]

theorem foldl_scoreToken (e : MemoryEntry) (w : SearchWeights) :
    ∀ (tokens : List String) (st : ScoreState),
    tokens.foldl (scoreToken e w) st =
      ⟨st.score + (tokens.map (tokenScore e w)).sum,
       st.matchedTokenCount + tokens.countP (tokenMatches e),
       st.reasons ++ tokens.flatMap (tokenReasons e)⟩
  | [], st => by simp
  | t :: ts, st => by
    rw [List.foldl_cons, scoreToken_eq, foldl_scoreToken e w ts]
    simp [List.countP_cons, add_assoc]
    omega

/-! ### Set-fold and dedup lemmas -/

theorem mem_setAdd {a x : String} {xs : List String} :
    a ∈ setAdd xs x ↔ a ∈ xs ∨ a = x := by
  unfold setAdd
  split
  · next hc =>
    have hx : x ∈ xs := by simpa using hc
    constructor
    · exact Or.inl
    · rintro (ha | rfl)
      · exact ha
      · exact hx
  · simp [List.mem_append]

theorem nodup_setAdd {x : String} {xs : List String} (h : xs.Nodup) :
    (setAdd xs x).Nodup := by
  unfold setAdd
  split
  · exact h
  · next hc =>
    have hx : x ∉ xs := by simpa using hc
    simp [List.nodup_append, h, hx]

theorem mem_foldl_setAdd (a : String) :
    ∀ (xs : List String) (acc : List String),
    a ∈ xs.foldl setAdd acc ↔ a ∈ acc ∨ a ∈ xs
  | [], acc => by simp
  | x :: xs, acc => by
    rw [List.foldl_cons, mem_foldl_setAdd a xs]
    rw [mem_setAdd]
    simp only [List.mem_cons]
    tauto

theorem nodup_foldl_setAdd :
    ∀ (xs : List String) (acc : List String), acc.Nodup →
    (xs.foldl setAdd acc).Nodup
  | [], _, h => h
  | x :: xs, acc, h => by
    rw [List.foldl_cons]
    exact nodup_foldl_setAdd xs _ (nodup_setAdd h)

theorem mem_dedup {a : String} {xs : List String} : a ∈ dedup xs ↔ a ∈ xs := by
  unfold dedup
  rw [mem_foldl_setAdd]
  simp

theorem nodup_dedup (xs : List String) : (dedup xs).Nodup :=
  nodup_foldl_setAdd xs [] List.nodup_nil

/-! ### String helpers for reasons -/

theorem append_ne_of_not_prefix {p q : String} (s : String)
    (h : ¬ p.data <+: q.data) : p ++ s ≠ q := by
  intro he
  exact h ⟨s.data, by rw [← String.data_append, he]⟩

theorem recent_reason_ne_allTokens (s : String) :
    ("bonus:recent+" ++ s) ≠ "bonus:all-tokens" :=
  append_ne_of_not_prefix _ (by decide)

theorem allTokens_notin_tokenReasons (e : MemoryEntry) (t : String) :
    "bonus:all-tokens" ∉ tokenReasons e t := by
  have htag : ("tag:" ++ tagTokenOf t) ≠ "bonus:all-tokens" :=
    append_ne_of_not_prefix _ (by decide)
  have hd : ("date:" ++ t) ≠ "bonus:all-tokens" :=
    append_ne_of_not_prefix _ (by decide)
  have hm : ("month:" ++ t) ≠ "bonus:all-tokens" :=
    append_ne_of_not_prefix _ (by decide)
  have ht : ("tag-partial:" ++ t) ≠ "bonus:all-tokens" :=
    append_ne_of_not_prefix _ (by decide)
  have hc : ("content:" ++ t) ≠ "bonus:all-tokens" :=
    append_ne_of_not_prefix _ (by decide)
  unfold tokenReasons
  split
  · simp [Ne.symm htag]
  · simp [Ne.symm hd, Ne.symm hm, Ne.symm ht, Ne.symm hc]

/-- `matchedTokenCount` of a scored entry counts the tokens the loop
body marked matched. -/
theorem scoreEntry_count (e : MemoryEntry) (tokens : List String)
    (w : SearchWeights) (rec : Bool) (now : Int) :
    (scoreEntry e tokens w rec now).matchedTokenCount =
      tokens.countP (tokenMatches e) := by
  unfold scoreEntry
  rw [foldl_scoreToken]
  by_cases h1 : 2 ≤ tokens.countP (tokenMatches e) <;>
  by_cases h2 : tokens.countP (tokenMatches e) = tokens.length <;>
  by_cases h3 : rec = true <;>
  by_cases h4 : 0 < getRecencyBonus now e.dateTime <;>
    simp [h1, h2, h3, h4, apply_ite ScoreState.matchedTokenCount]

/-- The score of a scored entry: per-token scores, then the two
count-gated bonuses, then the recency bonus. -/
theorem scoreEntry_score (e : MemoryEntry) (tokens : List String)
    (w : SearchWeights) (rec : Bool) (now : Int) :
    (scoreEntry e tokens w rec now).score =
      (tokens.map (tokenScore e w)).sum
      + (if 2 ≤ tokens.countP (tokenMatches e) then w.multiTokenBonus else 0)
      + (if tokens.countP (tokenMatches e) = tokens.length then w.allTokensBonus else 0)
      + (if rec = true ∧ 0 < getRecencyBonus now e.dateTime
          then getRecencyBonus now e.dateTime else 0) := by
  unfold scoreEntry
  rw [foldl_scoreToken]
  by_cases h1 : 2 ≤ tokens.countP (tokenMatches e) <;>
  by_cases h2 : tokens.countP (tokenMatches e) = tokens.length <;>
  by_cases h3 : rec = true <;>
  by_cases h4 : 0 < getRecencyBonus now e.dateTime <;>
    simp [h1, h2, h3, h4, add_assoc, apply_ite ScoreState.score,
      apply_ite ScoreState.matchedTokenCount] <;>
    (try split) <;> omega

/-- The all-tokens reason is recorded exactly when every token of the
scored token list was counted matched. -/
theorem scoreEntry_allTokens_reason (e : MemoryEntry) (tokens : List String)
    (w : SearchWeights) (rec : Bool) (now : Int) :
    ("bonus:all-tokens" ∈ (scoreEntry e tokens w rec now).reasons ↔
      tokens.countP (tokenMatches e) = tokens.length) := by
  unfold scoreEntry
  rw [foldl_scoreToken]
  by_cases h1 : 2 ≤ tokens.countP (tokenMatches e) <;>
  by_cases h2 : tokens.countP (tokenMatches e) = tokens.length <;>
  by_cases h3 : rec = true <;>
  by_cases h4 : 0 < getRecencyBonus now e.dateTime <;>
    simp [h1, h2, h3, h4, mem_dedup, List.mem_append, List.mem_flatMap,
      apply_ite ScoreState.reasons, apply_ite ScoreState.matchedTokenCount,
      recent_reason_ne_allTokens, allTokens_notin_tokenReasons,
      Ne.symm (recent_reason_ne_allTokens _)]

/-! ### Claim C1 -/

/-- **C1** (amended): the scorer grants `allTokensBonus` — and records the
all-tokens reason — exactly when every token of the token list it was
handed (in `structure_search_notes` this is the synonym-**expanded**
list, not the original tokenized query) was counted matched, where a
token only counts as matched through the date / month / tag-partial /
content signals: the tag-exact branch `continue`s before the counter
increment, so tag-exact-matched tokens do not count. -/
theorem allTokensBonus_iff_all_expanded_tokens_counted (e : MemoryEntry)
    (tokens : List String) (w : SearchWeights) (rec : Bool) (now : Int) :
    ("bonus:all-tokens" ∈ (scoreEntry e tokens w rec now).reasons ↔
        ∀ t ∈ tokens, tokenMatches e t = true)
    ∧ (scoreEntry e tokens w rec now).score =
        (tokens.map (tokenScore e w)).sum
        + (if 2 ≤ tokens.countP (tokenMatches e) then w.multiTokenBonus else 0)
        + (if ∀ t ∈ tokens, tokenMatches e t = true then w.allTokensBonus else 0)
        + (if rec = true ∧ 0 < getRecencyBonus now e.dateTime
            then getRecencyBonus now e.dateTime else 0)
    ∧ (scoreEntry e tokens w rec now).matchedTokenCount =
        tokens.countP (tokenMatches e) := by
  have hcount : tokens.countP (tokenMatches e) = tokens.length ↔
      ∀ t ∈ tokens, tokenMatches e t = true := List.countP_eq_length
  refine ⟨?_, ?_, scoreEntry_count e tokens w rec now⟩
  · rw [scoreEntry_allTokens_reason]
    exact hcount
  · rw [scoreEntry_score]
    simp only [hcount]

/-- **C1** counterexample to the claim as stated: for the query
`"#todo"` against an entry tagged `#todo`, the single original token
produced a matching signal (tag-exact), yet `structure_search_notes`'s
scorer does not grant the all-tokens bonus: the score stays at the
tag-exact weight 6 (not 6 + 4) and no all-tokens reason is recorded. -/
theorem allTokensBonus_original_tokens_cex :
    (∀ t ∈ tokenizeQuery "#todo",
        (tagHitExact ⟨"2020-01-01", ["#todo"], "", none⟩ t
          || hitDate ⟨"2020-01-01", ["#todo"], "", none⟩ t
          || hitMonth ⟨"2020-01-01", ["#todo"], "", none⟩ t
          || hitTagText ⟨"2020-01-01", ["#todo"], "", none⟩ t
          || hitContent ⟨"2020-01-01", ["#todo"], "", none⟩ t) = true)
    ∧ "bonus:all-tokens" ∉
        (scoreEntry ⟨"2020-01-01", ["#todo"], "", none⟩
          (expandTokens (tokenizeQuery "#todo") (getSynonymMap []))
          (getEffectiveWeights {}) false 0).reasons
    ∧ (scoreEntry ⟨"2020-01-01", ["#todo"], "", none⟩
          (expandTokens (tokenizeQuery "#todo") (getSynonymMap []))
          (getEffectiveWeights {}) false 0).score = 6
    ∧ (getEffectiveWeights {}).allTokensBonus = 4 := by decide

/-! ### Claim C2: effect of adding a tag -/

/-- The range `getEffectiveWeights` guarantees: `[1, 20]` for the five
signal weights, `[0, 20]` for the two bonuses. -/
def weightsInRange (w : SearchWeights) : Prop :=
  1 ≤ w.tagExact ∧ w.tagExact ≤ 20 ∧ 1 ≤ w.dateMatch ∧ w.dateMatch ≤ 20 ∧
  1 ≤ w.monthMatch ∧ w.monthMatch ≤ 20 ∧ 1 ≤ w.tagPart ∧ w.tagPart ≤ 20 ∧
  1 ≤ w.contentMatch ∧ w.contentMatch ≤ 20 ∧
  0 ≤ w.multiTokenBonus ∧ w.multiTokenBonus ≤ 20 ∧
  0 ≤ w.allTokensBonus ∧ w.allTokensBonus ≤ 20

instance (w : SearchWeights) : Decidable (weightsInRange w) := by
  unfold weightsInRange
  infer_instance

/-- No signal at all fires for this token on this entry. -/
def noTokenSignal (e : MemoryEntry) (t : String) : Bool :=
  !tagHitExact e t && !hitDate e t && !hitMonth e t && !hitTagText e t &&
    !hitContent e t

theorem charsIncludes_iff {pat hay : List Char} :
    charsIncludes pat hay = true ↔ pat <:+: hay := by
  induction hay with
  | nil =>
    simp only [charsIncludes, List.isEmpty_iff, List.infix_nil]
  | cons c rest ih =>
    simp [charsIncludes, ih, List.infix_cons_iff]

theorem strIncludes_iff {s pat : String} :
    strIncludes s pat = true ↔ pat.data <:+: s.data := charsIncludes_iff

theorem joinSpaceChars_append_singleton (l : List (List Char)) (x : List Char) :
    joinSpaceChars (l ++ [x]) =
      if l.isEmpty then x else joinSpaceChars l ++ ' ' :: x := by
  induction l with
  | nil => simp [joinSpaceChars]
  | cons a l ih =>
    cases l with
    | nil => simp [joinSpaceChars]
    | cons b l' =>
      show a ++ ' ' :: joinSpaceChars (b :: l' ++ [x]) = _
      rw [ih]
      simp [joinSpaceChars]

theorem dateTextOf_addTag (e : MemoryEntry) (newTag : String) :
    dateTextOf { e with tags := e.tags ++ [newTag] } = dateTextOf e := rfl

theorem normTags_addTag (e : MemoryEntry) (newTag : String) :
    normTags { e with tags := e.tags ++ [newTag] } =
      normTags e ++ [normalize newTag] := by
  simp [normTags]

theorem tagHitExact_addTag_of_ne {e : MemoryEntry} {newTag t : String}
    (hne : tagTokenOf t ≠ normalize newTag) :
    tagHitExact { e with tags := e.tags ++ [newTag] } t = tagHitExact e t := by
  unfold tagHitExact
  rw [normTags_addTag]
  by_cases h : tagTokenOf t ∈ normTags e <;> simp [h, hne]

theorem tagHitExact_addTag_of_eq {e : MemoryEntry} {newTag t : String}
    (heq : tagTokenOf t = normalize newTag) :
    tagHitExact { e with tags := e.tags ++ [newTag] } t = true := by
  unfold tagHitExact
  rw [normTags_addTag]
  simp [heq]

theorem hitTagText_addTag_mono {e : MemoryEntry} {newTag t : String}
    (h : hitTagText e t = true) :
    hitTagText { e with tags := e.tags ++ [newTag] } t = true := by
  unfold hitTagText tagTextOf joinSpace at h ⊢
  rw [strIncludes_iff] at h ⊢
  dsimp only at h ⊢
  rw [normTags_addTag]
  simp only [List.map_append, List.map_cons, List.map_nil]
  rw [joinSpaceChars_append_singleton]
  split
  · next hl =>
    have hm : List.map String.data (normTags e) = [] := by
      simpa [List.isEmpty_iff] using hl
    rw [hm] at h
    simp only [joinSpaceChars] at h
    have hnil : t.data = [] := by
      simpa [List.infix_nil] using h
    simp [hnil]
  · exact h.trans ((List.prefix_append _ _).isInfix)

theorem noTokenSignal_elim {e : MemoryEntry} {t : String}
    (h : noTokenSignal e t = true) :
    tagHitExact e t = false ∧ hitDate e t = false ∧ hitMonth e t = false ∧
      hitTagText e t = false ∧ hitContent e t = false := by
  simpa [noTokenSignal, and_assoc] using h

theorem tokenScore_addTag_le (e : MemoryEntry) (w : SearchWeights)
    (newTag t : String) (hw : weightsInRange w)
    (hq : tagTokenOf t = normalize newTag → noTokenSignal e t = true) :
    tokenScore e w t ≤ tokenScore { e with tags := e.tags ++ [newTag] } w t := by
  obtain ⟨hte1, _, _, _, _, _, htp1, _, _, _, _, _, _, _⟩ := hw
  by_cases hA : tagTokenOf t = normalize newTag
  · have hs := noTokenSignal_elim (hq hA)
    unfold tokenScore
    rw [tagHitExact_addTag_of_eq hA]
    simp [hs.1, hs.2.1, hs.2.2.1, hs.2.2.2.1, hs.2.2.2.2]
    omega
  · unfold tokenScore
    rw [tagHitExact_addTag_of_ne hA]
    by_cases hx : tagHitExact e t
    · simp [hx]
    · have hd : hitDate { e with tags := e.tags ++ [newTag] } t = hitDate e t := rfl
      have hm : hitMonth { e with tags := e.tags ++ [newTag] } t = hitMonth e t := rfl
      have hc : hitContent { e with tags := e.tags ++ [newTag] } t = hitContent e t := rfl
      simp only [hx, Bool.false_eq_true, if_neg, not_false_iff, hd, hm, hc]
      by_cases ht : hitTagText e t
      · simp [hitTagText_addTag_mono ht, ht]
      · by_cases ht' : hitTagText { e with tags := e.tags ++ [newTag] } t <;>
          simp [ht, ht'] <;> omega

theorem tokenMatches_addTag_mono {e : MemoryEntry} {newTag t : String}
    (hq : tagTokenOf t = normalize newTag → noTokenSignal e t = true)
    (h : tokenMatches e t = true) :
    tokenMatches { e with tags := e.tags ++ [newTag] } t = true := by
  by_cases hA : tagTokenOf t = normalize newTag
  · have hs := noTokenSignal_elim (hq hA)
    simp [tokenMatches, hs.1, hs.2.1, hs.2.2.1, hs.2.2.2.1, hs.2.2.2.2] at h
  · unfold tokenMatches at h ⊢
    rw [tagHitExact_addTag_of_ne hA]
    have hd : hitDate { e with tags := e.tags ++ [newTag] } t = hitDate e t := rfl
    have hm2 : hitMonth { e with tags := e.tags ++ [newTag] } t = hitMonth e t := rfl
    have hc2 : hitContent { e with tags := e.tags ++ [newTag] } t = hitContent e t := rfl
    rw [hd, hm2, hc2]
    by_cases ht : hitTagText e t
    · have ht' := @hitTagText_addTag_mono e newTag t ht
      simp_all
    · by_cases ht' : hitTagText { e with tags := e.tags ++ [newTag] } t <;> simp_all

theorem tokenScore_addTag_strict (e : MemoryEntry) (w : SearchWeights)
    (newTag t0 : String) (heq : tagTokenOf t0 = normalize newTag)
    (hq0 : noTokenSignal e t0 = true) :
    tokenScore e w t0 = 0 ∧
      tokenScore { e with tags := e.tags ++ [newTag] } w t0 = w.tagExact := by
  have hs := noTokenSignal_elim hq0
  constructor
  · simp [tokenScore, hs.1, hs.2.1, hs.2.2.1, hs.2.2.2.1, hs.2.2.2.2]
  · simp [tokenScore, tagHitExact_addTag_of_eq heq]

/-- **C2** (amended): adding a tag that tag-exact-matches a query token
strictly increases the entry's score — and every result that sorts
strictly before the new entry under the ranking comparator already
sorted strictly before the old one — provided every query token the new
tag would exact-match previously matched no signal at all on the entry.
(The restriction is forced: a token already matched by other signals
has its date/month/tag-partial/content contributions replaced by the
single `tagExact` weight, which can lower the score; see the
counterexample.) -/
theorem addingTagExact_increases_score (e : MemoryEntry)
    (tokens : List String) (w : SearchWeights) (rec : Bool) (now : Int)
    (newTag t0 : String)
    (hw : weightsInRange w)
    (ht0 : t0 ∈ tokens)
    (heq : tagTokenOf t0 = normalize newTag)
    (hquiet : ∀ t ∈ tokens, tagTokenOf t = normalize newTag →
      noTokenSignal e t = true) :
    (scoreEntry e tokens w rec now).score <
      (scoreEntry { e with tags := e.tags ++ [newTag] } tokens w rec now).score
    ∧ ∀ r : StructuredSearchResult,
        sortLe (scoreEntry { e with tags := e.tags ++ [newTag] } tokens w rec now)
            r = false →
        sortLe (scoreEntry e tokens w rec now) r = false := by
  obtain ⟨hte1, hte2, hdm1, hdm2, hmm1, hmm2, htp1, htp2, hcm1, hcm2,
    hmt1, hmt2, hat1, hat2⟩ := hw
  have hwfull : weightsInRange w :=
    ⟨hte1, hte2, hdm1, hdm2, hmm1, hmm2, htp1, htp2, hcm1, hcm2,
      hmt1, hmt2, hat1, hat2⟩
  have hsum : (tokens.map (tokenScore e w)).sum <
      (tokens.map (tokenScore { e with tags := e.tags ++ [newTag] } w)).sum := by
    apply List.sum_lt_sum
    · intro t htm
      exact tokenScore_addTag_le e w newTag t hwfull (hquiet t htm)
    · refine ⟨t0, ht0, ?_⟩
      obtain ⟨h0, hE⟩ :=
        tokenScore_addTag_strict e w newTag t0 heq (hquiet t0 ht0 heq)
      rw [h0, hE]
      omega
  have hcnt : tokens.countP (tokenMatches e) ≤
      tokens.countP (tokenMatches { e with tags := e.tags ++ [newTag] }) :=
    List.countP_mono_left (fun t htm h => tokenMatches_addTag_mono (hquiet t htm) h)
  have hlen : tokens.countP (tokenMatches e) ≤ tokens.length :=
    List.countP_le_length _
  have hlen' : tokens.countP (tokenMatches { e with tags := e.tags ++ [newTag] }) ≤
      tokens.length := List.countP_le_length _
  have hrec : getRecencyBonus now
      (MemoryEntry.dateTime { e with tags := e.tags ++ [newTag] }) =
      getRecencyBonus now e.dateTime := rfl
  have hsc : (scoreEntry e tokens w rec now).score <
      (scoreEntry { e with tags := e.tags ++ [newTag] } tokens w rec now).score := by
    rw [scoreEntry_score, scoreEntry_score, hrec]
    by_cases h1 : 2 ≤ tokens.countP (tokenMatches e) <;>
    by_cases h2 : tokens.countP (tokenMatches e) = tokens.length <;>
    by_cases h1' : 2 ≤ tokens.countP
        (tokenMatches { e with tags := e.tags ++ [newTag] }) <;>
    by_cases h2' : tokens.countP
        (tokenMatches { e with tags := e.tags ++ [newTag] }) = tokens.length <;>
      simp only [h1, h2, h1', h2', if_pos, if_neg, if_true, if_false] <;>
      omega
  refine ⟨hsc, ?_⟩
  intro r h
  simp only [sortLe, Bool.or_eq_false_iff, Bool.and_eq_false_iff,
    decide_eq_false_iff_not] at h ⊢
  obtain ⟨h1, h2⟩ := h
  refine ⟨by omega, Or.inl (by omega)⟩

/-- **C2** counterexample to the claim as stated: for the token
`"2026"` against an entry dated `2026-01-01` whose body contains
`"2026"`, adding the tag-exact-matching tag `#2026` (all else equal)
strictly **decreases** the score (13 to 6 with default weights): the
tag-exact branch short-circuits the date, month and content signals the
token previously earned and skips the matched-token counter. -/
theorem tagExact_monotonicity_cex :
    tagTokenOf "2026" = normalize "#2026"
    ∧ "2026" ∈ (["2026"] : List String)
    ∧ weightsInRange DEFAULT_WEIGHTS
    ∧ (scoreEntry ⟨"2026-01-01", [] ++ ["#2026"], "2026", none⟩ ["2026"]
          DEFAULT_WEIGHTS false 0).score
      < (scoreEntry ⟨"2026-01-01", [], "2026", none⟩ ["2026"]
          DEFAULT_WEIGHTS false 0).score := by
  decide

/-- **C2** witness: the amended theorem applied at a concrete entry,
token list and tag. -/
theorem addingTagExact_increases_score_witness :
    (weightsInRange DEFAULT_WEIGHTS
      ∧ "foo" ∈ (["foo"] : List String)
      ∧ tagTokenOf "foo" = normalize "#foo"
      ∧ ∀ t ∈ (["foo"] : List String), tagTokenOf t = normalize "#foo" →
          noTokenSignal ⟨"2020-01-01", [], "hello", none⟩ t = true)
    ∧ ((scoreEntry ⟨"2020-01-01", [], "hello", none⟩ ["foo"]
          DEFAULT_WEIGHTS false 0).score <
        (scoreEntry ⟨"2020-01-01", ["#foo"], "hello", none⟩ ["foo"]
          DEFAULT_WEIGHTS false 0).score
      ∧ ∀ r : StructuredSearchResult,
          sortLe (scoreEntry ⟨"2020-01-01", ["#foo"], "hello", none⟩ ["foo"]
              DEFAULT_WEIGHTS false 0) r = false →
          sortLe (scoreEntry ⟨"2020-01-01", [], "hello", none⟩ ["foo"]
              DEFAULT_WEIGHTS false 0) r = false) :=
  ⟨⟨by decide, by decide, by decide, by decide⟩,
    addingTagExact_increases_score ⟨"2020-01-01", [], "hello", none⟩ ["foo"]
      DEFAULT_WEIGHTS false 0 "#foo" "foo" (by decide) (by decide) (by decide)
      (by decide)⟩

/-! ### Claim C3: the ranking pipeline -/

theorem sortLe_trans : ∀ a b c : StructuredSearchResult,
    sortLe a b → sortLe b c → sortLe a c := by
  intro a b c hab hbc
  simp only [sortLe, Bool.or_eq_true, Bool.and_eq_true, decide_eq_true_eq]
    at hab hbc ⊢
  rcases hab with h | ⟨h1, h2⟩ <;> rcases hbc with h' | ⟨h1', h2'⟩
  · left; omega
  · left; omega
  · left; omega
  · exact Or.inr ⟨by omega, le_trans h2' h2⟩

theorem sortLe_total : ∀ a b : StructuredSearchResult,
    sortLe a b || sortLe b a := by
  intro a b
  simp only [sortLe, Bool.or_eq_true, Bool.and_eq_true, decide_eq_true_eq]
  rcases lt_trichotomy a.score b.score with h | h | h
  · exact Or.inr (Or.inl h)
  · rcases le_total a.entry.dateTime b.entry.dateTime with hd | hd
    · exact Or.inr (Or.inr ⟨h.symm, hd⟩)
    · exact Or.inl (Or.inr ⟨h, hd⟩)
  · exact Or.inl (Or.inl h)

/-- **C3**: the ranked list of `structure_search_notes` is the take-`lim`
prefix of a permutation of exactly the scored entries with strictly
positive score, sorted descending by score with ties broken by
descending (lexicographically greater first) timestamp. -/
theorem ranked_results_exact_sorted_truncated (entries : List MemoryEntry)
    (tokens : List String) (w : SearchWeights) (rec : Bool) (now : Int)
    (lim : Nat) :
    let scored := entries.map (fun e => scoreEntry e tokens w rec now)
    let sorted := (scored.filter (fun r => decide (0 < r.score))).mergeSort sortLe
    rankEntries entries tokens w rec now lim = sorted.take lim
    ∧ sorted.Perm (scored.filter (fun r => decide (0 < r.score)))
    ∧ (∀ r, r ∈ sorted ↔ r ∈ scored ∧ 0 < r.score)
    ∧ sorted.Pairwise (fun a b => b.score ≤ a.score ∧
        (a.score = b.score → b.entry.dateTime ≤ a.entry.dateTime)) := by
  intro scored sorted
  refine ⟨rfl, List.mergeSort_perm _ _, ?_, ?_⟩
  · intro r
    rw [List.mem_mergeSort, List.mem_filter]
    simp
  · have hp : sorted.Pairwise (fun a b => sortLe a b = true) :=
      List.sorted_mergeSort sortLe_trans sortLe_total
        (scored.filter (fun r => decide (0 < r.score)))
    refine hp.imp ?_
    intro a b hab
    simp only [sortLe, Bool.or_eq_true, Bool.and_eq_true, decide_eq_true_eq]
      at hab
    rcases hab with h | ⟨h1, h2⟩
    · exact ⟨by omega, fun he => by omega⟩
    · exact ⟨by omega, fun _ => h2⟩

/-! ### Claim C4: weight resolution clamps -/

/-- What the spec promises of one resolved weight `r` for override slot
`ov` with default `dflt` and bounds `[lo, hi]`: `r` is in range; a
finite override is floored and then clamped to the nearest bound (kept
as-is when the floor is in range); a missing or non-finite override
resolves to the default. -/
def resolvesClamped (ov : Option JsNum) (dflt lo hi r : Int) : Prop :=
  (lo ≤ r ∧ r ≤ hi) ∧
  (∀ q : ℚ, ov = some (JsNum.finite q) →
      ((⌊q⌋ < lo → r = lo) ∧ (hi < ⌊q⌋ → r = hi) ∧
        (lo ≤ ⌊q⌋ → ⌊q⌋ ≤ hi → r = ⌊q⌋))) ∧
  (ov = none → r = dflt) ∧ (ov = some JsNum.nan → r = dflt) ∧
  (ov = some JsNum.posInf → r = dflt) ∧ (ov = some JsNum.negInf → r = dflt)

theorem toBoundedInt_resolves (ov : Option JsNum) (dflt lo hi : Int)
    (hd1 : lo ≤ dflt) (hd2 : dflt ≤ hi) :
    resolvesClamped ov dflt lo hi
      (toBoundedInt (ov.getD (.finite (dflt : ℚ))) dflt lo hi) := by
  unfold resolvesClamped toBoundedInt
  cases ov with
  | none =>
    have hf : ⌊(dflt : ℚ)⌋ = dflt := Int.floor_intCast dflt
    simp only [Option.getD_none, hf]
    refine ⟨⟨by omega, by omega⟩, ?_, fun _ => by omega, ?_, ?_, ?_⟩ <;>
      intro h <;> first | (intro h2; simp at h2) | simp_all
  | some v =>
    cases v with
    | finite q =>
      simp only [Option.getD_some]
      refine ⟨⟨by omega, by omega⟩, ?_, by simp, by simp, by simp, by simp⟩
      intro q' hq'
      have hqq : q = q' := by
        simpa [JsNum.finite.injEq] using hq'
      subst hqq
      exact ⟨fun h => by omega, fun h => by omega, fun h1 h2 => by omega⟩
    | nan =>
      simp only [Option.getD_some]
      refine ⟨⟨by omega, by omega⟩, ?_, ?_, ?_, ?_, ?_⟩ <;> intro h <;>
        first | rfl | simp_all
    | posInf =>
      simp only [Option.getD_some]
      refine ⟨⟨by omega, by omega⟩, ?_, ?_, ?_, ?_, ?_⟩ <;> intro h <;>
        first | rfl | simp_all
    | negInf =>
      simp only [Option.getD_some]
      refine ⟨⟨by omega, by omega⟩, ?_, ?_, ?_, ?_, ?_⟩ <;> intro h <;>
        first | rfl | simp_all

/-- **C4**: every field of `getEffectiveWeights` is an integer clamped
into its valid range (`[1,20]` for the five signal weights, `[0,20]`
for the bonuses): an out-of-range override resolves to the nearest
bound (floor applied first), an in-range override to its floor, and a
missing or non-finite override to the field's default
(6/4/3/3/2/3/4 respectively — never zero). -/
theorem getEffectiveWeights_clamps (o : Overrides) :
    resolvesClamped o.tagExact 6 1 20 (getEffectiveWeights o).tagExact
    ∧ resolvesClamped o.dateMatch 4 1 20 (getEffectiveWeights o).dateMatch
    ∧ resolvesClamped o.monthMatch 3 1 20 (getEffectiveWeights o).monthMatch
    ∧ resolvesClamped o.tagPart 3 1 20 (getEffectiveWeights o).tagPart
    ∧ resolvesClamped o.contentMatch 2 1 20 (getEffectiveWeights o).contentMatch
    ∧ resolvesClamped o.multiTokenBonus 3 0 20 (getEffectiveWeights o).multiTokenBonus
    ∧ resolvesClamped o.allTokensBonus 4 0 20 (getEffectiveWeights o).allTokensBonus :=
  ⟨toBoundedInt_resolves o.tagExact 6 1 20 (by norm_num) (by norm_num),
   toBoundedInt_resolves o.dateMatch 4 1 20 (by norm_num) (by norm_num),
   toBoundedInt_resolves o.monthMatch 3 1 20 (by norm_num) (by norm_num),
   toBoundedInt_resolves o.tagPart 3 1 20 (by norm_num) (by norm_num),
   toBoundedInt_resolves o.contentMatch 2 1 20 (by norm_num) (by norm_num),
   toBoundedInt_resolves o.multiTokenBonus 3 0 20 (by norm_num) (by norm_num),
   toBoundedInt_resolves o.allTokensBonus 4 0 20 (by norm_num) (by norm_num)⟩

/-! ### Claim C5: empty queries -/

theorem wordsGo_all_ws :
    ∀ cs : List Char, (∀ c ∈ cs, c.isWhitespace = true) → wordsGo cs [] = []
  | [], _ => by simp [wordsGo]
  | c :: rest, h => by
    have hc : c.isWhitespace = true := h c (by simp)
    simp only [wordsGo, hc, if_true, List.isEmpty_nil]
    exact wordsGo_all_ws rest (fun c' hc' => h c' (by simp [hc']))

theorem tokenizeQuery_ws_empty {q : String}
    (h : ∀ c ∈ q.data, c.isWhitespace = true) : tokenizeQuery q = [] := by
  unfold tokenizeQuery
  rw [wordsGo_all_ws q.data h]
  rfl

/-- **C5**: a query that is empty or all whitespace makes
`structure_search_notes` return the explicit `"query is empty"` error
result — for every entry list, so no entry is scored and the outcome is
distinguishable from a query that matched nothing (which returns an
`ok` outcome with an empty result list). -/
theorem empty_query_reports_error (entries : List MemoryEntry) (query : String)
    (limit : JsNum) (rec : Bool) (synonyms : List String) (weights : Overrides)
    (now : Int) (h : ∀ c ∈ query.data, c.isWhitespace = true) :
    structure_search_notes entries query limit rec synonyms weights now =
      .error "query is empty"
    ∧ tokenizeQuery query = [] := by
  have ht := tokenizeQuery_ws_empty h
  refine ⟨?_, ht⟩
  unfold structure_search_notes
  simp [ht]

/-- **C5** witness: the whitespace query `" \t "` against a non-empty
entry list. -/
theorem empty_query_reports_error_witness :
    (∀ c ∈ (" \t ").data, c.isWhitespace = true)
    ∧ (structure_search_notes [⟨"2026-02-01", ["#todo"], "Buy milk", none⟩]
          " \t " (JsNum.finite 10) true [] {} 0 = .error "query is empty"
      ∧ tokenizeQuery " \t " = []) :=
  ⟨by decide,
    empty_query_reports_error [⟨"2026-02-01", ["#todo"], "Buy milk", none⟩]
      " \t " (JsNum.finite 10) true [] {} 0 (by decide)⟩

/-! ### Claim C6: independent non-exact signals -/

/-- **C6**: for a token that is not a tag-exact match, the four
remaining signals are tested independently and every one that applies
adds its weight.  Concretely, on the spec's scenario-B document the
token `"2026-02"` hits both the date signal and the month signal of the
`2026-02-01` entry, its per-token score is `dateMatch + monthMatch` for
**every** weight record (7 before bonuses with defaults), the full score
is 11 (7 + all-tokens bonus 4, no recency), both reasons are recorded,
and the `2026-01-15` entry scores 0. -/
theorem independent_signals_scenarioB :
    (∀ w : SearchWeights,
      tokenScore ⟨"2026-02-01", ["#todo"], "Buy milk", none⟩ w "2026-02" =
        w.dateMatch + w.monthMatch)
    ∧ hitDate ⟨"2026-02-01", ["#todo"], "Buy milk", none⟩ "2026-02" = true
    ∧ hitMonth ⟨"2026-02-01", ["#todo"], "Buy milk", none⟩ "2026-02" = true
    ∧ tagHitExact ⟨"2026-02-01", ["#todo"], "Buy milk", none⟩ "2026-02" = false
    ∧ DEFAULT_WEIGHTS.dateMatch + DEFAULT_WEIGHTS.monthMatch = 7
    ∧ (scoreEntry ⟨"2026-02-01", ["#todo"], "Buy milk", none⟩ ["2026-02"]
        DEFAULT_WEIGHTS false 0).score = 11
    ∧ "date:2026-02" ∈ (scoreEntry ⟨"2026-02-01", ["#todo"], "Buy milk", none⟩
        ["2026-02"] DEFAULT_WEIGHTS false 0).reasons
    ∧ "month:2026-02" ∈ (scoreEntry ⟨"2026-02-01", ["#todo"], "Buy milk", none⟩
        ["2026-02"] DEFAULT_WEIGHTS false 0).reasons
    ∧ (scoreEntry ⟨"2026-01-15", ["#meeting"], "Discuss roadmap", none⟩
        ["2026-02"] DEFAULT_WEIGHTS false 0).score = 0 := by
  refine ⟨?_, by decide, by decide, by decide, by decide, by decide, by decide,
    by decide, by decide⟩
  intro w
  have h0 : tagHitExact ⟨"2026-02-01", ["#todo"], "Buy milk", none⟩ "2026-02" = false :=
    by decide
  have h1 : hitDate ⟨"2026-02-01", ["#todo"], "Buy milk", none⟩ "2026-02" = true :=
    by decide
  have h2 : hitMonth ⟨"2026-02-01", ["#todo"], "Buy milk", none⟩ "2026-02" = true :=
    by decide
  have h3 : hitTagText ⟨"2026-02-01", ["#todo"], "Buy milk", none⟩ "2026-02" = false :=
    by decide
  have h4 : hitContent ⟨"2026-02-01", ["#todo"], "Buy milk", none⟩ "2026-02" = false :=
    by decide
  simp [tokenScore, h0, h1, h2, h3, h4]

/-! ### Claim C7: synonym-map building and expansion -/

theorem lookupSyns_nil_of_not_keyIn :
    ∀ {m : List (String × List String)} {k : String}, keyIn m k = false →
    lookupSyns m k = [] := by
  intro m k h
  induction m with
  | nil => rfl
  | cons kv m ih =>
    simp only [keyIn, List.any_cons, Bool.or_eq_false_iff] at h
    simp only [lookupSyns, List.find?_cons, h.1]
    exact ih (by simpa [keyIn] using h.2)

theorem find?_mapAddValue (m : List (String × List String)) (k' v k : String) :
    (mapAddValue m k' v).find? (fun kv => kv.1 == k) =
      (m.find? (fun kv => kv.1 == k)).map
        (fun kv => if kv.1 == k' then (kv.1, setAdd kv.2 v) else kv) := by
  unfold mapAddValue
  have hpred : ((fun kv : String × List String => kv.1 == k) ∘
      fun kv => if (kv.1 == k') = true then (kv.1, setAdd kv.2 v) else kv) =
      (fun kv : String × List String => kv.1 == k) := by
    funext kv
    by_cases h : kv.1 == k' <;> simp [Function.comp, h]
  rw [List.find?_map, hpred]

theorem keyIn_mapAddValue (m : List (String × List String)) (k' v k : String) :
    keyIn (mapAddValue m k' v) k = keyIn m k := by
  induction m with
  | nil => rfl
  | cons kv m ih =>
    show ((if (kv.1 == k') = true then (kv.1, setAdd kv.2 v) else kv).1 == k ||
        keyIn (mapAddValue m k' v) k) = (kv.1 == k || keyIn m k)
    rw [ih]
    by_cases h : kv.1 == k' <;> simp [h]

theorem keyIn_mapEnsureKey_self (m : List (String × List String)) (k : String) :
    keyIn (mapEnsureKey m k) k = true := by
  unfold mapEnsureKey
  split
  · next h => exact h
  · simp [keyIn, List.any_append]

theorem lookupSyns_mapEnsureKey (m : List (String × List String)) (k' k : String) :
    lookupSyns (mapEnsureKey m k') k = lookupSyns m k := by
  unfold mapEnsureKey
  split
  · rfl
  · unfold lookupSyns
    rw [List.find?_append]
    cases hfind : m.find? (fun kv => kv.1 == k) with
    | some kv => rfl
    | none =>
      simp only [Option.none_or]
      cases hk : List.find? (fun kv => kv.1 == k) [(k', ([] : List String))] with
      | none => rfl
      | some kv =>
        have : kv = (k', []) := by
          have := List.find?_mem hk
          simpa using this
        subst this
        rfl

theorem lookupSyns_mapAddValue_same (m : List (String × List String))
    (k v : String) (h : keyIn m k = true) :
    lookupSyns (mapAddValue m k v) k = setAdd (lookupSyns m k) v := by
  unfold lookupSyns
  rw [find?_mapAddValue]
  have hsome : (m.find? (fun kv => kv.1 == k)).isSome := by
    rw [List.find?_isSome]
    simpa [keyIn, List.any_eq_true] using h
  obtain ⟨kv, hkv⟩ := Option.isSome_iff_exists.mp hsome
  have hp' := List.find?_some hkv
  have hp : kv.1 = k := by simpa using hp'
  rw [hkv]
  simp [hp]

theorem lookupSyns_mapAddValue_other (m : List (String × List String))
    (k' v k : String) (hne : k ≠ k') :
    lookupSyns (mapAddValue m k' v) k = lookupSyns m k := by
  unfold lookupSyns
  rw [find?_mapAddValue]
  cases hfind : m.find? (fun kv => kv.1 == k) with
  | none => rfl
  | some kv =>
    have hp' := List.find?_some hfind
    have hp : kv.1 = k := by simpa using hp'
    have hne2 : kv.1 ≠ k' := by simp [hp, hne]
    simp [hne2]

theorem mem_lookupSyns_mapAddValue_mono {m : List (String × List String)}
    {k x : String} (k' v : String) (hx : x ∈ lookupSyns m k) :
    x ∈ lookupSyns (mapAddValue m k' v) k := by
  by_cases he : k = k'
  · subst he
    by_cases hk : keyIn m k
    · rw [lookupSyns_mapAddValue_same m k v hk]
      exact mem_setAdd.mpr (Or.inl hx)
    · rw [lookupSyns_nil_of_not_keyIn (by simpa using hk)] at hx
      cases hx
  · rw [lookupSyns_mapAddValue_other m k' v k he]
    exact hx

theorem mem_lookupSyns_foldl_addValue_mono (key : String) :
    ∀ (vs : List String) (m : List (String × List String)) {k x : String},
    x ∈ lookupSyns m k →
    x ∈ lookupSyns (vs.foldl (fun acc v => mapAddValue acc key v) m) k
  | [], _, _, _, hx => hx
  | v :: vs, m, k, x, hx =>
    mem_lookupSyns_foldl_addValue_mono key vs _
      (mem_lookupSyns_mapAddValue_mono key v hx)

theorem keyIn_foldl_addValue (key : String) :
    ∀ (vs : List String) (m : List (String × List String)) (k : String),
    keyIn (vs.foldl (fun acc v => mapAddValue acc key v) m) k = keyIn m k
  | [], _, _ => rfl
  | v :: vs, m, k => by
    rw [List.foldl_cons, keyIn_foldl_addValue key vs _ k, keyIn_mapAddValue]

theorem self_mem_lookupSyns_foldl_addValue (key : String) :
    ∀ (vs : List String) (m : List (String × List String)) (v : String),
    keyIn m key = true → v ∈ vs →
    v ∈ lookupSyns (vs.foldl (fun acc u => mapAddValue acc key u) m) key
  | [], _, v, _, hv => absurd hv (List.not_mem_nil v)
  | u :: vs, m, v, hkey, hv => by
    rw [List.foldl_cons]
    rcases List.mem_cons.mp hv with rfl | hv'
    · apply mem_lookupSyns_foldl_addValue_mono
      rw [lookupSyns_mapAddValue_same m key v hkey]
      exact mem_setAdd.mpr (Or.inr rfl)
    · exact self_mem_lookupSyns_foldl_addValue key vs _ v
        (by rw [keyIn_mapAddValue]; exact hkey) hv'

theorem mem_lookupSyns_foldl_addValueNorm_mono (key : String) :
    ∀ (vs : List String) (m : List (String × List String)) {k x : String},
    x ∈ lookupSyns m k →
    x ∈ lookupSyns
      (vs.foldl (fun acc v => mapAddValue acc key (normalize v)) m) k
  | [], _, _, _, hx => hx
  | v :: vs, m, k, x, hx =>
    mem_lookupSyns_foldl_addValueNorm_mono key vs _
      (mem_lookupSyns_mapAddValue_mono key (normalize v) hx)

theorem mem_lookupSyns_addBuiltInRow_mono (row : String × List String)
    {m : List (String × List String)} {k x : String}
    (hx : x ∈ lookupSyns m k) : x ∈ lookupSyns (addBuiltInRow m row) k := by
  show x ∈ lookupSyns
    (row.2.foldl (fun acc v => mapAddValue acc (normalize row.1) (normalize v))
      (mapEnsureKey m (normalize row.1))) k
  apply mem_lookupSyns_foldl_addValueNorm_mono
  rw [lookupSyns_mapEnsureKey]
  exact hx

theorem mem_lookupSyns_addCustomRow_mono (row : String)
    {m : List (String × List String)} {k x : String}
    (hx : x ∈ lookupSyns m k) : x ∈ lookupSyns (addCustomRow m row) k := by
  simp only [addCustomRow]
  split
  · exact hx
  · apply mem_lookupSyns_foldl_addValue_mono
    rw [lookupSyns_mapEnsureKey]
    exact hx

theorem mem_lookupSyns_foldl_custom_mono :
    ∀ (rows : List String) (m : List (String × List String)) {k x : String},
    x ∈ lookupSyns m k → x ∈ lookupSyns (rows.foldl addCustomRow m) k
  | [], _, _, _, hx => hx
  | row :: rows, m, k, x, hx =>
    mem_lookupSyns_foldl_custom_mono rows _
      (mem_lookupSyns_addCustomRow_mono row hx)

/-- The normalized key a custom row registers under (mirrors the parse
inside `addCustomRow`). -/
def rowKeyOf (row : String) : String :=
  normalize (((splitChar ':' row.data).map (fun p => jsTrim ⟨p⟩)).getD 0 "")

/-- The normalized, trimmed, non-empty values a custom row contributes;
`[]` for a malformed row. -/
def rowValuesOf (row : String) : List String :=
  let parts := (splitChar ':' row.data).map (fun p => jsTrim ⟨p⟩)
  let rawKey := parts.getD 0 ""
  let rawValues := parts.getD 1 ""
  if rawKey == "" || rawValues == "" then []
  else
    ((splitChar ',' rawValues.data).map (fun v => normalize (jsTrim ⟨v⟩))).filter
      (fun v => 0 < v.length)

/-- A row `addCustomRow` silently skips: missing key or missing values. -/
def rowMalformed (row : String) : Bool :=
  let parts := (splitChar ':' row.data).map (fun p => jsTrim ⟨p⟩)
  parts.getD 0 "" == "" || parts.getD 1 "" == ""

theorem addCustomRow_skips_malformed (m : List (String × List String))
    (row : String) (h : rowMalformed row = true) : addCustomRow m row = m := by
  simp only [addCustomRow]
  simp only [rowMalformed] at h
  rw [if_pos h]

theorem addCustomRow_adds (m : List (String × List String)) (row : String)
    (v : String) (hv : v ∈ rowValuesOf row) :
    v ∈ lookupSyns (addCustomRow m row) (rowKeyOf row) := by
  simp only [addCustomRow, rowKeyOf]
  simp only [rowValuesOf] at hv
  split
  · next hbad =>
    rw [if_pos hbad] at hv
    cases hv
  · next hbad =>
    rw [if_neg hbad] at hv
    exact self_mem_lookupSyns_foldl_addValue _ _ _ v
      (keyIn_mapEnsureKey_self m _) hv

/-! Membership and dedup structure of `expandTokens`. -/

theorem mem_foldl_addSyns (f : String → List String) (x : String) :
    ∀ (ts : List String) (acc : List String),
    (x ∈ ts.foldl (fun acc token => (f token).foldl setAdd acc) acc ↔
      x ∈ acc ∨ ∃ t ∈ ts, x ∈ f t)
  | [], acc => by simp
  | t :: ts, acc => by
    rw [List.foldl_cons, mem_foldl_addSyns f x ts, mem_foldl_setAdd]
    constructor
    · rintro ((h | h) | h)
      · exact Or.inl h
      · exact Or.inr ⟨t, by simp, h⟩
      · obtain ⟨u, hu, hx⟩ := h
        exact Or.inr ⟨u, by simp [hu], hx⟩
    · rintro (h | ⟨u, hu, hx⟩)
      · exact Or.inl (Or.inl h)
      · rcases List.mem_cons.mp hu with rfl | hu'
        · exact Or.inl (Or.inr hx)
        · exact Or.inr ⟨u, hu', hx⟩

theorem nodup_foldl_addSyns (f : String → List String) :
    ∀ (ts : List String) (acc : List String), acc.Nodup →
    (ts.foldl (fun acc token => (f token).foldl setAdd acc) acc).Nodup
  | [], _, h => h
  | _ :: ts, acc, h =>
    nodup_foldl_addSyns f ts _ (nodup_foldl_setAdd _ acc h)

theorem mem_expandTokens {tokens : List String}
    {m : List (String × List String)} {x : String} :
    x ∈ expandTokens tokens m ↔
      x ∈ tokens ∨ ∃ t ∈ tokens,
        x ∈ lookupSyns m (if startsWithHash t then dropFirstChar t else t) := by
  show x ∈ tokens.foldl (fun acc token =>
      (lookupSyns m (if startsWithHash token then dropFirstChar token else token)).foldl
        setAdd acc) (tokens.foldl setAdd []) ↔ _
  rw [mem_foldl_addSyns (fun token =>
    lookupSyns m (if startsWithHash token then dropFirstChar token else token)) x]
  rw [mem_foldl_setAdd]
  simp

theorem nodup_expandTokens (tokens : List String)
    (m : List (String × List String)) : (expandTokens tokens m).Nodup := by
  show (tokens.foldl (fun acc token =>
      (lookupSyns m (if startsWithHash token then dropFirstChar token else token)).foldl
        setAdd acc) (tokens.foldl setAdd [])).Nodup
  exact nodup_foldl_addSyns _ tokens _ (nodup_foldl_setAdd tokens [] List.nodup_nil)

/-- **C7**: (i) `expandTokens` returns exactly the original tokens plus,
for each token, the synonyms registered under its `#`-stripped form —
one lookup hop only, nothing transitive; (ii) the result is
duplicate-free; (iii) every built-in synonym pair survives any custom
rules (merge, not replace); (iv) every value of a well-formed custom
`"key:v1,v2"` row is registered under the row's normalized key;
(v) a malformed row (missing key or missing value list) is silently
skipped and leaves the map unchanged. -/
theorem expandTokens_and_synonymMap_spec :
    (∀ (tokens : List String) (m : List (String × List String)) (x : String),
      x ∈ expandTokens tokens m ↔
        x ∈ tokens ∨ ∃ t ∈ tokens,
          x ∈ lookupSyns m (if startsWithHash t then dropFirstChar t else t))
    ∧ (∀ (tokens : List String) (m : List (String × List String)),
        (expandTokens tokens m).Nodup)
    ∧ (∀ (custom : List String) (k : String) (vs : List String),
        (k, vs) ∈ getBuiltInSynonyms → ∀ v ∈ vs,
          normalize v ∈ lookupSyns (getSynonymMap custom) (normalize k))
    ∧ (∀ (rows : List String) (row : String), row ∈ rows →
        ∀ v ∈ rowValuesOf row,
          v ∈ lookupSyns (getSynonymMap rows) (rowKeyOf row))
    ∧ (∀ (pre post : List String) (row : String), rowMalformed row = true →
        getSynonymMap (pre ++ row :: post) = getSynonymMap (pre ++ post)) := by
  refine ⟨fun tokens m x => mem_expandTokens, nodup_expandTokens, ?_, ?_, ?_⟩
  · intro custom k vs hmem v hv
    unfold getSynonymMap
    apply mem_lookupSyns_foldl_custom_mono
    simp only [getBuiltInSynonyms, List.mem_cons, List.mem_singleton,
      Prod.mk.injEq, List.not_mem_nil, or_false] at hmem
    rcases hmem with ⟨rfl, rfl⟩ | ⟨rfl, rfl⟩ | ⟨rfl, rfl⟩ <;>
      revert hv <;> revert v <;> decide
  · intro rows row hr v hv
    obtain ⟨pre, post, rfl⟩ := List.append_of_mem hr
    unfold getSynonymMap
    rw [List.foldl_append, List.foldl_cons]
    apply mem_lookupSyns_foldl_custom_mono
    exact addCustomRow_adds _ row v hv
  · intro pre post row h
    unfold getSynonymMap
    rw [List.foldl_append, List.foldl_append, List.foldl_cons,
      addCustomRow_skips_malformed _ row h]

/-! ### Claim C8: where the reminder date comes from -/

/-- Every entry `parseMemoryLines` emits either carries the
date/tags/reminder of the already-open entry, or got them from a header
line among the remaining lines; body lines only ever extend `content`. -/
theorem parseMemoryLines_fields_from_header :
    ∀ (lines : List String) (cur : Option MemoryEntry) (e : MemoryEntry),
    e ∈ parseMemoryLines lines cur →
    (∃ ce, cur = some ce ∧ e.dateTime = ce.dateTime ∧ e.tags = ce.tags ∧
      e.reminder = ce.reminder)
    ∨ ∃ line ∈ lines, ∃ rest : String,
        parseHeaderLine line = some (e.dateTime, rest) ∧
        e.tags = scanTags rest.data ∧ e.reminder = findReminder rest.data := by
  intro lines
  induction lines with
  | nil =>
    intro cur e he
    cases cur with
    | none => simp [parseMemoryLines] at he
    | some ce =>
      simp only [parseMemoryLines, List.mem_singleton] at he
      exact Or.inl ⟨ce, rfl, by rw [he], by rw [he], by rw [he]⟩
  | cons line rest ih =>
    intro cur e he
    cases hh : parseHeaderLine line with
    | some p =>
      obtain ⟨dt, tagsPart⟩ := p
      cases cur with
      | some ce =>
        simp only [parseMemoryLines, hh, List.mem_cons] at he
        rcases he with he0 | he'
        · exact Or.inl ⟨ce, rfl, by rw [he0], by rw [he0], by rw [he0]⟩
        · rcases ih _ e he' with ⟨ce', hce', h1, h2, h3⟩ | ⟨l, hl, rst, hr, h2, h3⟩
          · have : ce' = ⟨dt, scanTags tagsPart.data, "", findReminder tagsPart.data⟩ := by
              simpa using hce'.symm
            subst this
            refine Or.inr ⟨line, by simp, tagsPart, ?_, by simpa using h2,
              by simpa using h3⟩
            rw [hh, h1]
          · exact Or.inr ⟨l, by simp [hl], rst, hr, h2, h3⟩
      | none =>
        simp only [parseMemoryLines, hh] at he
        rcases ih _ e he with ⟨ce', hce', h1, h2, h3⟩ | ⟨l, hl, rst, hr, h2, h3⟩
        · have : ce' = ⟨dt, scanTags tagsPart.data, "", findReminder tagsPart.data⟩ := by
            simpa using hce'.symm
          subst this
          refine Or.inr ⟨line, by simp, tagsPart, ?_, by simpa using h2,
            by simpa using h3⟩
          rw [hh, h1]
        · exact Or.inr ⟨l, by simp [hl], rst, hr, h2, h3⟩
    | none =>
      cases cur with
      | some ce =>
        simp only [parseMemoryLines, hh] at he
        by_cases hb : jsTrim line ≠ "" ∧ ¬ startsWithTitleMarker line = true
        · rw [if_pos hb] at he
          rcases ih _ e he with ⟨ce', hce', h1, h2, h3⟩ | hR
          · have : ce' = { ce with content :=
                if ce.content = "" then line else ce.content ++ "\n" ++ line } := by
              simpa using hce'.symm
            subst this
            exact Or.inl ⟨ce, rfl, by simpa using h1, by simpa using h2,
              by simpa using h3⟩
          · obtain ⟨l, hl, rst, hr, h2, h3⟩ := hR
            exact Or.inr ⟨l, by simp [hl], rst, hr, h2, h3⟩
        · rw [if_neg hb] at he
          rcases ih _ e he with ⟨ce', hce', h1, h2, h3⟩ | ⟨l, hl, rst, hr, h2, h3⟩
          · have h4 : ce' = ce := by simpa using hce'.symm
            exact Or.inl ⟨ce, rfl, by rw [h1, h4], by rw [h2, h4], by rw [h3, h4]⟩
          · exact Or.inr ⟨l, by simp [hl], rst, hr, h2, h3⟩
      | none =>
        simp only [parseMemoryLines, hh] at he
        rcases ih _ e he with ⟨ce', hce', _⟩ | ⟨l, hl, rst, hr, h2, h3⟩
        · cases hce'
        · exact Or.inr ⟨l, by simp [hl], rst, hr, h2, h3⟩

/-- **C8** (amended): the `reminder` field of every entry produced by
`parseMemoryFile` comes from the `@YYYY-MM-DD` scan of the **header
line's tail** (the text after the timestamp) alone — never from the
body.  (The separate reminder view `extractReminders` does scan
accumulated body text, but the parser's `LogEntry.reminderDate` field
does not.) -/
theorem reminder_from_header_tail_only (content : String) (e : MemoryEntry)
    (he : e ∈ parseMemoryFile content) :
    ∃ line ∈ (splitChar '\n' content.data).map (fun l => (⟨l⟩ : String)),
      ∃ rest : String, parseHeaderLine line = some (e.dateTime, rest) ∧
        e.tags = scanTags rest.data ∧ e.reminder = findReminder rest.data := by
  rcases parseMemoryLines_fields_from_header _ none e he with ⟨ce, hce, _⟩ | h
  · cases hce
  · exact h

/-- **C8** counterexample to the claim as stated: a document whose only
`@YYYY-MM-DD` token sits in the entry's body.  The token appears in the
entry (and `findReminder` would extract it from the body text), yet the
parsed entry's `reminder` field is `none`. -/
theorem reminder_body_ignored_cex :
    parseMemoryFile "## 2026-01-01\n@2026-05-05 call mom" =
      [⟨"2026-01-01", [], "@2026-05-05 call mom", none⟩]
    ∧ findReminder ("@2026-05-05 call mom").data = some "2026-05-05"
    ∧ (⟨"2026-01-01", [], "@2026-05-05 call mom", none⟩ : MemoryEntry).reminder =
        none := by decide

/-- **C8** witness: a reminder in the header tail is extracted; the
amended theorem applied at that document. -/
theorem reminder_from_header_tail_only_witness :
    ((⟨"2026-01-01", ["#a"], "body", some "2026-05-05"⟩ : MemoryEntry) ∈
        parseMemoryFile "## 2026-01-01 #a @2026-05-05\nbody")
    ∧ ∃ line ∈ (splitChar '\n' ("## 2026-01-01 #a @2026-05-05\nbody").data).map
          (fun l => (⟨l⟩ : String)),
        ∃ rest : String,
          parseHeaderLine line =
            some ((⟨"2026-01-01", ["#a"], "body", some "2026-05-05"⟩ :
              MemoryEntry).dateTime, rest) ∧
          (⟨"2026-01-01", ["#a"], "body", some "2026-05-05"⟩ :
              MemoryEntry).tags = scanTags rest.data ∧
          (⟨"2026-01-01", ["#a"], "body", some "2026-05-05"⟩ :
              MemoryEntry).reminder = findReminder rest.data :=
  ⟨by decide,
    reminder_from_header_tail_only "## 2026-01-01 #a @2026-05-05\nbody"
      ⟨"2026-01-01", ["#a"], "body", some "2026-05-05"⟩ (by decide)⟩

/-! ### Claim C9: the recency bonus alone makes an entry a result -/

theorem getRecencyBonus_pos {now pm : Int} {dt : String}
    (hparse : parseEntryDate dt = some pm) (h : now - pm ≤ 180 * 1440) :
    0 < getRecencyBonus now dt := by
  unfold getRecencyBonus
  rw [hparse]
  dsimp only
  repeat' split <;> omega

/-- **C9**: with the recency flag on, an entry whose timestamp parses
and lies within 180 days of `now` gets a strictly positive score even
when no query token matches any signal at all: its matched-token count
is 0, its score is exactly the recency bonus, it passes the
`score > 0` filter into the sorted candidate list for any entry list
containing it, and for a singleton entry list it is the ranked output. -/
theorem recency_bonus_scores_unmatched_entry (e : MemoryEntry)
    (tokens : List String) (w : SearchWeights) (now pm : Int)
    (hnone : ∀ t ∈ tokens, noTokenSignal e t = true)
    (hne : tokens ≠ [])
    (hparse : parseEntryDate e.dateTime = some pm)
    (hwithin : now - pm ≤ 180 * 1440) :
    (scoreEntry e tokens w true now).matchedTokenCount = 0
    ∧ 0 < getRecencyBonus now e.dateTime
    ∧ (scoreEntry e tokens w true now).score = getRecencyBonus now e.dateTime
    ∧ (∀ entries : List MemoryEntry, e ∈ entries →
        scoreEntry e tokens w true now ∈
          ((entries.map (fun x => scoreEntry x tokens w true now)).filter
            (fun x => decide (0 < x.score))).mergeSort sortLe)
    ∧ (∀ lim : Nat, rankEntries [e] tokens w true now (lim + 1) =
        [scoreEntry e tokens w true now]) := by
  have hTokM : ∀ t ∈ tokens, tokenMatches e t = false := by
    intro t ht
    have hs := noTokenSignal_elim (hnone t ht)
    simp [tokenMatches, hs.1, hs.2.1, hs.2.2.1, hs.2.2.2.1, hs.2.2.2.2]
  have hTokS : ∀ t ∈ tokens, tokenScore e w t = 0 := by
    intro t ht
    have hs := noTokenSignal_elim (hnone t ht)
    simp [tokenScore, hs.1, hs.2.1, hs.2.2.1, hs.2.2.2.1, hs.2.2.2.2]
  have hcount : tokens.countP (tokenMatches e) = 0 := by
    rw [List.countP_eq_zero]
    intro t ht
    simp [hTokM t ht]
  have hsum : (tokens.map (tokenScore e w)).sum = 0 := by
    apply List.sum_eq_zero
    intro x hx
    obtain ⟨t, ht, rfl⟩ := List.mem_map.mp hx
    exact hTokS t ht
  have hrb : 0 < getRecencyBonus now e.dateTime := getRecencyBonus_pos hparse hwithin
  have hlen0 : tokens.length ≠ 0 := by
    simpa [List.length_eq_zero] using hne
  have hscore : (scoreEntry e tokens w true now).score =
      getRecencyBonus now e.dateTime := by
    rw [scoreEntry_score, hsum, hcount]
    simp [hlen0, Ne.symm hlen0, hrb]
  have hcnt0 : (scoreEntry e tokens w true now).matchedTokenCount = 0 := by
    rw [scoreEntry_count, hcount]
  refine ⟨hcnt0, hrb, hscore, ?_, ?_⟩
  · intro entries hmem
    rw [List.mem_mergeSort, List.mem_filter]
    constructor
    · exact List.mem_map.mpr ⟨e, hmem, rfl⟩
    · simp [hscore, hrb]
  · intro lim
    unfold rankEntries
    have hfil : ((([e] : List MemoryEntry).map
        (fun x => scoreEntry x tokens w true now)).filter
          (fun x => decide (0 < x.score))) = [scoreEntry e tokens w true now] := by
      simp [List.filter, hscore, hrb]
    rw [hfil]
    simp

/-- **C9** witness: entry dated `2026-01-01`, query token `"zzz"`
matching nothing, `now` = the epoch (the entry lies in the future,
hence within 7 days — tier +4). -/
theorem recency_bonus_scores_unmatched_entry_witness :
    ((∀ t ∈ (["zzz"] : List String),
        noTokenSignal ⟨"2026-01-01", [], "hello", none⟩ t = true)
      ∧ (["zzz"] : List String) ≠ []
      ∧ parseEntryDate "2026-01-01" = some 29453760
      ∧ (0 : Int) - 29453760 ≤ 180 * 1440)
    ∧ ((scoreEntry ⟨"2026-01-01", [], "hello", none⟩ ["zzz"]
          DEFAULT_WEIGHTS true 0).matchedTokenCount = 0
      ∧ 0 < getRecencyBonus 0 "2026-01-01"
      ∧ (scoreEntry ⟨"2026-01-01", [], "hello", none⟩ ["zzz"]
          DEFAULT_WEIGHTS true 0).score = getRecencyBonus 0 "2026-01-01"
      ∧ (∀ entries : List MemoryEntry,
          (⟨"2026-01-01", [], "hello", none⟩ : MemoryEntry) ∈ entries →
          scoreEntry ⟨"2026-01-01", [], "hello", none⟩ ["zzz"]
              DEFAULT_WEIGHTS true 0 ∈
            ((entries.map (fun x => scoreEntry x ["zzz"] DEFAULT_WEIGHTS true 0)).filter
              (fun x => decide (0 < x.score))).mergeSort sortLe)
      ∧ (∀ lim : Nat,
          rankEntries [⟨"2026-01-01", [], "hello", none⟩] ["zzz"]
              DEFAULT_WEIGHTS true 0 (lim + 1) =
            [scoreEntry ⟨"2026-01-01", [], "hello", none⟩ ["zzz"]
              DEFAULT_WEIGHTS true 0])) :=
  ⟨⟨by decide, by decide, by decide, by decide⟩,
    recency_bonus_scores_unmatched_entry ⟨"2026-01-01", [], "hello", none⟩
      ["zzz"] DEFAULT_WEIGHTS 0 29453760 (by decide) (by decide) (by decide)
      (by decide)⟩

/-! ### Claim C10: one original token can earn the multi-token bonus -/

/-- **C10**: the query `"タスク"` tokenizes to a single token, expands
through the built-in synonym map to `["タスク", "todo", "課題"]`, and
on an entry whose body contains both `"タスク"` and `"todo"` the scorer
counts two matched tokens and adds `multiTokenBonus`: score
2 + 2 + 3 = 7 with default weights, with the multi-token reason
recorded — even though the user supplied only one token. -/
theorem single_token_multiTokenBonus_via_synonym :
    (tokenizeQuery "タスク").length = 1
    ∧ expandTokens (tokenizeQuery "タスク") (getSynonymMap []) =
        ["タスク", "todo", "課題"]
    ∧ (scoreEntry ⟨"2020-01-01", [], "タスク: todo リスト", none⟩
        (expandTokens (tokenizeQuery "タスク") (getSynonymMap []))
        (getEffectiveWeights {}) false 0).matchedTokenCount = 2
    ∧ "bonus:multi-token" ∈ (scoreEntry ⟨"2020-01-01", [], "タスク: todo リスト", none⟩
        (expandTokens (tokenizeQuery "タスク") (getSynonymMap []))
        (getEffectiveWeights {}) false 0).reasons
    ∧ (scoreEntry ⟨"2020-01-01", [], "タスク: todo リスト", none⟩
        (expandTokens (tokenizeQuery "タスク") (getSynonymMap []))
        (getEffectiveWeights {}) false 0).score = 7
    ∧ (getEffectiveWeights {}).multiTokenBonus = 3 := by decide

end Noteeees
